import Mathlib

/-!
Verification of the two agent nodes of this repository:
* `extract_node` (step summarizer) from
  `examples/coagents-ai-researcher/agent/ai_researcher/extract.py`,
* `translate_node` and `get_model` (translator) from
  `examples/coagents-shared-state/agent/my_agent/agent.py`.

Both nodes delegate the model call to an external service; the embedding
takes the model response as an explicit parameter, so a node is a pure
function of (state, response).  Python dictionary fields that may be
absent are modelled with `Option`; a raised `ValueError`/`IndexError`
is modelled with `Except.error`.
-/

/-- Roles of LangChain messages (`HumanMessage`, `AIMessage`,
`SystemMessage`, `ToolMessage`). -/
inductive Role where
  | human
  | ai
  | system
  | tool
deriving DecidableEq, Repr

/-- The partial translations dictionary: the `args` payload of a
`Translations` tool call may miss any of the three fields, so each is
an `Option`. -/
structure TransDict where
  translation_es : Option String
  translation_fr : Option String
  translation_de : Option String
deriving DecidableEq, Repr

/-- A tool call carried by an `AIMessage`: `tool_calls[0]["id"]` and
`tool_calls[0].get("args", {})` (the `{}` default is `Option.none`). -/
structure ToolCall where
  id : String
  args : Option TransDict
deriving DecidableEq, Repr

/-- A LangChain message: a role tag, text content, the (possibly empty)
list of tool calls of an `AIMessage`, and the `tool_call_id` of a
`ToolMessage`. -/
structure Message where
  role : Role
  content : String
  toolCalls : List ToolCall := []
  toolCallId : Option String := none
deriving DecidableEq, Repr

/-! ## Step summarizer (`extract.py`) -/

/-- Modelled from the spec: the Step record of `ai_researcher/state.py`
(the file itself is not in the excerpt; section 3 of the spec gives its
fields): `{id, type, status, result, search_result, updates}`.
`extract.py` reads `type` and `updates` with `dict.get`, so they may be
absent; `status` is read with `step["status"]` and is required. -/
structure Step where
  id : String
  type : Option String
  status : String
  result : Option String
  search_result : Option String
  updates : Option (List String)
deriving DecidableEq, Repr

/-- Modelled from the spec: the researcher agent state
(`ai_researcher/state.py` is not in the excerpt): the fields of it that
`extract.py` touches are `messages` and `steps`. -/
structure ExtractState where
  messages : List Message
  steps : List Step
deriving DecidableEq, Repr

/-- `next((step for step in steps if step["status"] == "pending"), None)`,
together with the position of the found step (the Python code mutates
the step object in place; the index lets the embedding update the list
at the same position). -/
def firstPending : List Step → Option (Nat × Step)
  | [] => none
  | s :: rest =>
    if s.status = "pending" then some (0, s)
    else (firstPending rest).map fun p => (p.1 + 1, p.2)

/-- The `current_step.update({...})` record of `extract_node`:
`result` is the model response content, `search_result` is cleared,
`status` becomes `"complete"`, and `"Done."` is appended to the update
log (`current_step.get("updates", [])`). -/
def completed_step (s : Step) (response : String) : Step :=
  { s with
    result := some response
    search_result := none
    status := "complete"
    updates := some (s.updates.getD [] ++ ["Done."]) }

/-- `extract_node` of `extract.py`.  The model call is abstracted: the
`response` argument is the content of the model's reply, and the node is
only applied once that call returned.  Failures raised by the Python
code (`ValueError` on a bad state, `IndexError` on
`state["messages"][0]` with an empty message list) are `Except.error`
values, returned before any step is modified. -/
def extract_node (state : ExtractState) (response : String) :
    Except String ExtractState :=
  match firstPending state.steps with
  | none => Except.error "No pending search step found"
  | some (i, current_step) =>
    if current_step.type ≠ some "search" then
      Except.error "The current step is not a search step"
    else
      match state.messages[0]? with
      | none => Except.error "IndexError: list index out of range"
      | some _ =>
        let steps1 := state.steps.set i (completed_step current_step response)
        let steps2 :=
          match firstPending steps1 with
          | none => steps1
          | some (j, next_step) =>
            steps1.set j { next_step with updates := some ["Searching the web..."] }
        Except.ok { state with steps := steps2 }

/-! ## Translator (`agent.py`) -/

/-- The two supported model providers; the Python code returns a
`ChatOpenAI` or `ChatAnthropic` client, whose construction performs no
network call. -/
inductive ModelProvider where
  | openai
  | anthropic
deriving DecidableEq, Repr

/-- `DEFAULT_MODEL = "openai"`. -/
def DEFAULT_MODEL : String := "openai"

/-- Python's `str.lower()` (character-wise lowercasing, as in
`os.getenv("MODEL", DEFAULT_MODEL).lower()`). -/
def pyLower (s : String) : String := ⟨s.data.map Char.toLower⟩

/-- `get_model` of `agent.py`: the argument is the value of the `MODEL`
environment variable (`none` when unset).  An unsupported value raises
`ValueError` before any client is constructed. -/
def get_model (envModel : Option String) : Except String ModelProvider :=
  let model_choice := pyLower (envModel.getD DEFAULT_MODEL)
  if model_choice = "openai" then Except.ok ModelProvider.openai
  else if model_choice = "anthropic" then Except.ok ModelProvider.anthropic
  else Except.error ("Invalid model specified: " ++ model_choice)

/-- The agent state of `agent.py`: `MessagesState` plus
`translations: Optional[Translations]` and `input: str`. -/
structure AgentState where
  messages : List Message
  translations : Option TransDict
  input : String
deriving DecidableEq, Repr

/-- The `tool_choice` argument of `bind_tools`:
`None if state.messages and isinstance(state.messages[-1], HumanMessage)
else "Translations"`.  `none` leaves the tool optional; `some
"Translations"` forces it. -/
def tool_choice (messages : List Message) : Option String :=
  match messages.getLast? with
  | some m => if m.role = Role.human then none else some "Translations"
  | none => some "Translations"

/-- The `translation_prompt` f-string of `translate_node`; the sentence
about the current text is included only when `state.get("input")` is
truthy, i.e. when `input` is a non-empty string. -/
def translation_prompt (input : String) : String :=
  "\n    You are a helpful assistant that translates text to different languages \n    (Spanish, French, and German).\n    Don\x27t ask for confirmation before translating.\n    "
    ++ (if input ≠ "" then
          "The user is currently working on translating this text: \"" ++ input ++ "\""
        else "")
    ++ "\n    "

/-- `new_message = HumanMessage(content=translation_prompt)`. -/
def new_message (input : String) : Message :=
  { role := Role.human, content := translation_prompt input }

/-- The predicate of the list comprehension building `filtered_messages`:
keep a message unless it is a `SystemMessage`, or an `AIMessage` whose
content is empty after `strip()`. -/
def keep_message (m : Message) : Bool :=
  !(m.role == Role.system) && !(m.role == Role.ai && m.content.trim == "")

/-- The `filtered_messages` list comprehension of `translate_node`. -/
def filtered_messages (messages : List Message) : List Message :=
  messages.filter keep_message

/-- The message sequence passed to `model.ainvoke`: the filtered history
with the synthesized translation request appended. -/
def model_input (state : AgentState) : List Message :=
  filtered_messages state.messages ++ [new_message state.input]

/-- `translate_node` of `agent.py` after the model call: `response` is
the message returned by `model.ainvoke`.  If it carries tool calls the
state's `translations` and `input` are updated and a `ToolMessage` is
appended; either way `state.messages` is assigned the list of new
messages (the external `MessagesState` reducer folds them into the
history). -/
def translate_node (state : AgentState) (response : Message) : AgentState :=
  match response.toolCalls with
  | tc :: _ =>
    let translations := tc.args.getD ⟨none, none, none⟩
    let tool_message : Message :=
      { role := Role.tool, content := "Translated!", toolCallId := some tc.id }
    { messages := [new_message state.input, response, tool_message]
      translations := some translations
      input := "" }
  | [] =>
    { state with messages := [new_message state.input, response] }

deriving instance DecidableEq for Except

/-! ## Sanity checks on concrete inputs -/

def exHuman : Message := { role := Role.human, content := "query" }

example :
    extract_node { messages := [exHuman], steps := [] } "r"
      = Except.error "No pending search step found" := by decide

example :
    extract_node
      { messages := [exHuman],
        steps := [{ id := "1", type := some "brainstorm", status := "pending",
                    result := none, search_result := none, updates := none }] } "r"
      = Except.error "The current step is not a search step" := by decide

example :
    (extract_node
      { messages := [exHuman],
        steps := [{ id := "1", type := some "search", status := "pending",
                    result := none, search_result := some "raw", updates := some [] },
                  { id := "2", type := some "summarize", status := "pending",
                    result := none, search_result := none, updates := some ["Preparing..."] }] }
      "summary").toOption.map (fun st => st.steps.map Step.updates)
      = some [some ["Done."], some ["Searching the web..."]] := by decide

example : get_model none = Except.ok ModelProvider.openai := by decide

example : get_model (some "Gemini")
    = Except.error ("Invalid model specified: " ++ pyLower "Gemini") := by decide

example : tool_choice [exHuman] = none := by decide

example : tool_choice [] = some "Translations" := by decide

/-! ## Characterization of `firstPending` -/

theorem firstPending_none_iff (steps : List Step) :
    firstPending steps = none ↔ ∀ s ∈ steps, s.status ≠ "pending" := by
  induction steps with
  | nil => simp [firstPending]
  | cons a rest ih =>
    by_cases h : a.status = "pending" <;>
      simp [firstPending, h, ih, Option.map_eq_none']

theorem firstPending_some_iff (steps : List Step) (i : Nat) (s : Step) :
    firstPending steps = some (i, s) ↔
      steps[i]? = some s ∧ s.status = "pending" ∧
        ∀ k, k < i → ∀ t, steps[k]? = some t → t.status ≠ "pending" := by
  induction steps generalizing i with
  | nil => simp [firstPending]
  | cons a rest ih =>
    rw [firstPending]
    by_cases h : a.status = "pending"
    · rw [if_pos h]
      cases i with
      | zero =>
        simp only [Option.some.injEq, Prod.mk.injEq, List.getElem?_cons_zero]
        constructor
        · rintro ⟨-, rfl⟩
          exact ⟨rfl, h, fun k hk => absurd hk (by omega)⟩
        · rintro ⟨hs, -, -⟩
          exact ⟨trivial, hs⟩
      | succ n =>
        simp only [Option.some.injEq, Prod.mk.injEq]
        constructor
        · rintro ⟨h0, -⟩
          exact absurd h0 (by omega)
        · rintro ⟨-, -, hmin⟩
          exact absurd h (hmin 0 (Nat.succ_pos n) a List.getElem?_cons_zero)
    · rw [if_neg h]
      cases i with
      | zero =>
        simp only [Option.map_eq_some', List.getElem?_cons_zero, Option.some.injEq,
          Prod.mk.injEq]
        constructor
        · rintro ⟨p, -, h0, -⟩
          exact absurd h0 (by omega)
        · rintro ⟨rfl, hpend, -⟩
          exact absurd hpend h
      | succ n =>
        simp only [Option.map_eq_some', List.getElem?_cons_succ, Prod.mk.injEq]
        constructor
        · rintro ⟨⟨m, t⟩, hp, h1, h2⟩
          have hmn : m = n := by omega
          subst hmn
          subst h2
          obtain ⟨hget, hpend, hmin⟩ := (ih m).mp hp
          refine ⟨hget, hpend, ?_⟩
          intro k hk t' hget'
          match k with
          | 0 =>
            rw [List.getElem?_cons_zero] at hget'
            injection hget' with hget'
            exact hget' ▸ h
          | k' + 1 =>
            rw [List.getElem?_cons_succ] at hget'
            exact hmin k' (by omega) t' hget'
        · rintro ⟨hget, hpend, hmin⟩
          refine ⟨(n, s), (ih n).mpr ⟨hget, hpend, ?_⟩, rfl, rfl⟩
          intro k hk t hget'
          exact hmin (k + 1) (by omega) t (by simpa using hget')

theorem firstPending_lt_length {steps : List Step} {i : Nat} {s : Step}
    (h : firstPending steps = some (i, s)) : i < steps.length := by
  obtain ⟨hget, -, -⟩ := (firstPending_some_iff steps i s).mp h
  obtain ⟨hlt, -⟩ := List.getElem?_eq_some_iff.mp hget
  exact hlt

/-- On success, `extract_node` returns the state whose steps list has the
first pending step completed and, when a pending step remains, that
step's `updates` replaced by the single "Searching the web..." entry. -/
theorem extract_node_ok_eq {st : ExtractState} {r : String} {i : Nat} {cur : Step}
    (hfp : firstPending st.steps = some (i, cur))
    (hty : cur.type = some "search")
    (hmsg : st.messages ≠ []) :
    extract_node st r = Except.ok
      { st with steps :=
          match firstPending (st.steps.set i (completed_step cur r)) with
          | none => st.steps.set i (completed_step cur r)
          | some (j, next_step) =>
            (st.steps.set i (completed_step cur r)).set j
              { next_step with updates := some ["Searching the web..."] } } := by
  obtain ⟨m, ms, hm⟩ : ∃ m ms, st.messages = m :: ms := by
    cases hmm : st.messages with
    | nil => exact absurd hmm hmsg
    | cons m ms => exact ⟨m, ms, rfl⟩
  simp [extract_node, hfp, hty, hm]

/-- If `extract_node` succeeds, the original state had a first pending
step of type `"search"` and a non-empty message list, and the result is
the state described by `extract_node_ok_eq`. -/
theorem extract_node_ok_inv {st : ExtractState} {r : String} {st' : ExtractState}
    (h : extract_node st r = Except.ok st') :
    ∃ i cur, firstPending st.steps = some (i, cur) ∧ cur.type = some "search" ∧
      st.messages ≠ [] ∧
      st' = { st with steps :=
          match firstPending (st.steps.set i (completed_step cur r)) with
          | none => st.steps.set i (completed_step cur r)
          | some (j, next_step) =>
            (st.steps.set i (completed_step cur r)).set j
              { next_step with updates := some ["Searching the web..."] } } := by
  match hfp : firstPending st.steps with
  | none => simp [extract_node, hfp] at h
  | some (i, cur) =>
    by_cases hty : cur.type = some "search"
    · match hm : st.messages with
      | [] => simp [extract_node, hfp, hty, hm] at h
      | m :: ms =>
        refine ⟨i, cur, rfl, hty, by simp, ?_⟩
        have he := extract_node_ok_eq (r := r) hfp hty (by simp [hm])
        rw [he] at h
        injection h with h
        subst h
        rw [hm]
    · simp [extract_node, hfp, hty] at h

/-- The step found by the second `next(...)` scan of `extract_node`
(the first pending step after completing step `i`) lies strictly after
`i`, was pending and unchanged in the original list, and no step
strictly between `i` and it is pending. -/
theorem firstPending_after_complete {steps : List Step} {i : Nat} {cur : Step} {r : String}
    {j : Nat} {nxt : Step}
    (hfp : firstPending steps = some (i, cur))
    (h : firstPending (steps.set i (completed_step cur r)) = some (j, nxt)) :
    i < j ∧ steps[j]? = some nxt ∧ nxt.status = "pending" ∧
      ∀ k, i < k → k < j → ∀ t, steps[k]? = some t → t.status ≠ "pending" := by
  obtain ⟨hg, hpend, hmin⟩ := (firstPending_some_iff ..).mp hfp
  have hi : i < steps.length := firstPending_lt_length hfp
  obtain ⟨hg', hpend', hmin'⟩ := (firstPending_some_iff ..).mp h
  have hne : j ≠ i := by
    intro hji
    rw [hji, List.getElem?_set_self hi] at hg'
    injection hg' with hg'
    have : nxt.status = "complete" := by rw [← hg']; rfl
    rw [this] at hpend'
    exact absurd hpend' (by decide)
  have hjs : steps[j]? = some nxt := by
    rw [← List.getElem?_set_ne (a := completed_step cur r) (Ne.symm hne)]
    exact hg'
  have hij : i < j := by
    rcases Nat.lt_or_ge i j with h1 | h1
    · exact h1
    · have hji : j < i := by omega
      exact absurd hpend' (hmin j hji nxt hjs)
  refine ⟨hij, hjs, hpend', ?_⟩
  intro k hik hkj t ht
  have : (steps.set i (completed_step cur r))[k]? = some t := by
    rw [List.getElem?_set_ne (by omega)]
    exact ht
  exact hmin' k hkj t this

/-- Conversely, the first pending step of the original list strictly
after position `i` is exactly the step the second scan finds. -/
theorem firstPending_after_complete_of {steps : List Step} {i : Nat} {cur : Step} {r : String}
    {j : Nat} {nxt : Step}
    (hfp : firstPending steps = some (i, cur))
    (hij : i < j)
    (hj : steps[j]? = some nxt)
    (hnxt : nxt.status = "pending")
    (hmid : ∀ k, i < k → k < j → ∀ t, steps[k]? = some t → t.status ≠ "pending") :
    firstPending (steps.set i (completed_step cur r)) = some (j, nxt) := by
  obtain ⟨hg, hpend, hmin⟩ := (firstPending_some_iff ..).mp hfp
  have hi : i < steps.length := firstPending_lt_length hfp
  refine (firstPending_some_iff ..).mpr ⟨?_, hnxt, ?_⟩
  · rw [List.getElem?_set_ne (by omega)]
    exact hj
  · intro k hkj t ht
    rcases Nat.lt_trichotomy k i with h1 | h1 | h1
    · rw [List.getElem?_set_ne (by omega)] at ht
      exact hmin k h1 t ht
    · subst h1
      rw [List.getElem?_set_self hi] at ht
      injection ht with ht
      rw [← ht]
      simp [completed_step]
    · rw [List.getElem?_set_ne (by omega)] at ht
      exact hmid k h1 hkj t ht

/-! ## Claims -/

def c1Message : Message := { role := Role.human, content := "Translate hello" }

/-- C1, counterexample: for the one-message conversation
`[HumanMessage "Translate hello"]` the last message is human-authored,
yet `tool_choice` evaluates to `None` (the tool is left optional), not
to the forced `"Translations"` the claim requires. -/
theorem C1_counterexample :
    [c1Message].getLast?.map Message.role = some Role.human ∧
      tool_choice [c1Message] ≠ some "Translations" := by decide

/-- C1 (amended): for every translator invocation whose conversation
state has a non-empty message list ending in a human-authored message,
the translation tool call is left optional (`tool_choice = None`); for
every invocation whose message list is empty or whose last message is
not human-authored, the tool call is forced (`tool_choice =
"Translations"`). -/
theorem C1_tool_choice (messages : List Message) :
    (tool_choice messages = none ↔
        messages ≠ [] ∧ messages.getLast?.map Message.role = some Role.human) ∧
      (tool_choice messages = some "Translations" ↔
        (messages = [] ∨ messages.getLast?.map Message.role ≠ some Role.human)) := by
  match hm : messages.getLast? with
  | none =>
    have : messages = [] := List.getLast?_eq_none_iff.mp hm
    subst this
    simp [tool_choice]
  | some m =>
    have hne : messages ≠ [] := by
      intro h
      subst h
      simp at hm
    by_cases hr : m.role = Role.human <;> simp [tool_choice, hm, hr, hne]

/-- C2: whenever the steps list has no pending step, or its first
pending step is not of type `"search"`, `extract_node` raises a
`ValueError` (one of the two invalid-state messages).  In the pure
embedding the error is returned instead of a state, and in the Python
source both checks (lines 12–18) precede every mutation of a step
(lines 44–55), so no step field is touched before the error. -/
theorem C2_invalid_state (st : ExtractState) (r : String)
    (h : ((firstPending st.steps).all fun p => p.2.type != some "search") = true) :
    extract_node st r = Except.error "No pending search step found" ∨
      extract_node st r = Except.error "The current step is not a search step" := by
  match hfp : firstPending st.steps with
  | none =>
    left
    simp [extract_node, hfp]
  | some (i, cur) =>
    right
    rw [hfp] at h
    simp only [Option.all, bne_iff_ne, ne_eq] at h
    simp [extract_node, hfp, h]

def c2State : ExtractState :=
  { messages := [{ role := Role.human, content := "query" }],
    steps := [{ id := "1", type := some "brainstorm", status := "pending",
                result := none, search_result := none, updates := none }] }

/-- Witness for C2: a state whose only pending step has type
`"brainstorm"` makes `extract_node` fail. -/
theorem C2_witness :
    (((firstPending c2State.steps).all fun p => p.2.type != some "search") = true) ∧
      (extract_node c2State "r" = Except.error "No pending search step found" ∨
        extract_node c2State "r" = Except.error "The current step is not a search step") :=
  ⟨by decide, C2_invalid_state c2State "r" (by decide)⟩

/-- C9: the failure decision looks only at the first pending step: if
that step's type is not `"search"`, `extract_node` raises the
invalid-state error even when a later pending step of type `"search"`
exists. -/
theorem C9_first_pending_decides (st : ExtractState) (r : String) (i j : Nat)
    (cur later : Step)
    (hfp : firstPending st.steps = some (i, cur))
    (hty : cur.type ≠ some "search")
    (hij : i < j)
    (hj : st.steps[j]? = some later)
    (hpend : later.status = "pending")
    (hsearch : later.type = some "search") :
    extract_node st r = Except.error "The current step is not a search step" := by
  simp [extract_node, hfp, hty]

def c9Step1 : Step :=
  { id := "1", type := some "brainstorm", status := "pending",
    result := none, search_result := none, updates := none }

def c9Step2 : Step :=
  { id := "2", type := some "search", status := "pending",
    result := none, search_result := some "raw", updates := some [] }

/-- Witness for C9: first pending step is a `"brainstorm"` step, a
pending `"search"` step follows, and the node still fails. -/
theorem C9_witness :
    extract_node { messages := [c1Message], steps := [c9Step1, c9Step2] } "r"
      = Except.error "The current step is not a search step" :=
  C9_first_pending_decides { messages := [c1Message], steps := [c9Step1, c9Step2] }
    "r" 0 1 c9Step1 c9Step2 (by decide) (by decide) (by decide) (by decide)
    (by decide) (by decide)

/-- C6: for every value of the `MODEL` environment variable whose
lowercasing is neither `"openai"` nor `"anthropic"`, `get_model` raises
`ValueError` (in the source the `raise` is reached without constructing
any model client, so no network call can have occurred); with the
variable unset the default provider `"openai"` is selected and no error
is raised. -/
theorem C6_model_selection (v : String)
    (h1 : pyLower v ≠ "openai") (h2 : pyLower v ≠ "anthropic") :
    get_model (some v) = Except.error ("Invalid model specified: " ++ pyLower v) ∧
      get_model none = Except.ok ModelProvider.openai := by
  refine ⟨?_, by decide⟩
  simp [get_model, h1, h2]

/-- Witness for C6: `MODEL=Gemini` is rejected. -/
theorem C6_witness :
    pyLower "Gemini" ≠ "openai" ∧ pyLower "Gemini" ≠ "anthropic" ∧
      (get_model (some "Gemini")
          = Except.error ("Invalid model specified: " ++ pyLower "Gemini") ∧
        get_model none = Except.ok ModelProvider.openai) :=
  ⟨by decide, by decide, C6_model_selection "Gemini" (by decide) (by decide)⟩

/-- C4: when the model response carries a tool call whose `args`
payload has all three translation fields, the returned state stores
that payload in `translations` and clears the free-text `input` field
to the empty string. -/
theorem C4_translations_set (st : AgentState) (resp : Message) (tc : ToolCall)
    (rest : List ToolCall) (d : TransDict)
    (hcalls : resp.toolCalls = tc :: rest)
    (hargs : tc.args = some d)
    (hes : d.translation_es.isSome = true)
    (hfr : d.translation_fr.isSome = true)
    (hde : d.translation_de.isSome = true) :
    (translate_node st resp).translations = some d ∧
      d.translation_es.isSome = true ∧
      d.translation_fr.isSome = true ∧
      d.translation_de.isSome = true ∧
      (translate_node st resp).input = "" := by
  refine ⟨?_, hes, hfr, hde, ?_⟩ <;> simp [translate_node, hcalls, hargs]

def c4Payload : TransDict :=
  { translation_es := some "hola", translation_fr := some "bonjour",
    translation_de := some "hallo" }

def c4Response : Message :=
  { role := Role.ai, content := "",
    toolCalls := [{ id := "call_1", args := some c4Payload }] }

def c4State : AgentState :=
  { messages := [c1Message], translations := none, input := "hello" }

/-- Witness for C4: a response with a complete `Translations` payload
fills the state's `translations` and clears `input`. -/
theorem C4_witness :
    (translate_node c4State c4Response).translations = some c4Payload ∧
      c4Payload.translation_es.isSome = true ∧
      c4Payload.translation_fr.isSome = true ∧
      c4Payload.translation_de.isSome = true ∧
      (translate_node c4State c4Response).input = "" :=
  C4_translations_set c4State c4Response
    { id := "call_1", args := some c4Payload } [] c4Payload
    (by decide) (by decide) (by decide) (by decide) (by decide)

/-- C5: when the model response carries no tool call, the messages the
node hands back to the graph engine are exactly the synthesized
translation request and the raw model response (the external
`MessagesState` reducer appends exactly these two to the history), and
the `translations` field is left unchanged. -/
theorem C5_no_tool_calls (st : AgentState) (resp : Message)
    (h : resp.toolCalls = []) :
    (translate_node st resp).messages = [new_message st.input, resp] ∧
      (translate_node st resp).translations = st.translations := by
  simp [translate_node, h]

def c5Response : Message :=
  { role := Role.ai, content := "Which text should I translate?" }

/-- Witness for C5: a plain-text response is appended after the
synthesized request and `translations` stays `none`. -/
theorem C5_witness :
    (translate_node c4State c5Response).messages
        = [new_message c4State.input, c5Response] ∧
      (translate_node c4State c5Response).translations = c4State.translations :=
  C5_no_tool_calls c4State c5Response (by decide)

/-- The history filter as the spec words it: drop every system message
and every assistant message whose content is empty or whitespace-only,
keep everything else. -/
def keep_message_spec (m : Message) : Bool :=
  !(m.role == Role.system || (m.role == Role.ai && m.content.trim == ""))

/-- C8: the message sequence sent to the model is the conversation
history with all system messages and all whitespace-only assistant
messages removed, followed by the one synthesized instruction message;
that message's content names the three fixed target languages
(its text begins with the fixed prompt header naming Spanish, French
and German). -/
theorem C8_model_input (st : AgentState) :
    model_input st
        = st.messages.filter keep_message_spec ++ [new_message st.input] ∧
      ∃ s, (new_message st.input).content
        = "\n    You are a helpful assistant that translates text to different languages \n    (Spanish, French, and German).\n    Don\x27t ask for confirmation before translating.\n    "
          ++ s := by
  constructor
  · have hkeep : keep_message = keep_message_spec := by
      funext m
      rw [keep_message, keep_message_spec, Bool.not_or]
    rw [model_input, filtered_messages, hkeep]
  · refine ⟨(if st.input ≠ "" then
        "The user is currently working on translating this text: \"" ++ st.input ++ "\""
      else "") ++ "\n    ", ?_⟩
    rw [show (new_message st.input).content = translation_prompt st.input from rfl,
      translation_prompt, String.append_assoc]

def c3Step1 : Step :=
  { id := "1", type := some "search", status := "pending",
    result := none, search_result := some "raw search results", updates := some [] }

def c3Step2 : Step :=
  { id := "2", type := some "summarize", status := "pending",
    result := none, search_result := none, updates := some ["Preparing..."] }

def c3State : ExtractState :=
  { messages := [{ role := Role.human, content := "query" }],
    steps := [c3Step1, c3Step2] }

/-- C3, counterexample: in a state with exactly one pending search step
followed by a further pending step whose log already holds
`"Preparing..."`, the summarizer succeeds but the further step's log
afterwards is exactly `["Searching the web..."]` — the previous entry
is discarded, so the log did not gain the entry in addition to its
previous entries as the claim states. -/
theorem C3_counterexample :
    ((extract_node c3State "summary").toOption.map fun s => s.steps.map Step.updates)
        = some [some ["Done."], some ["Searching the web..."]] ∧
      ((extract_node c3State "summary").toOption.map fun s => s.steps.map Step.updates)
        ≠ some [some ["Done."], some (["Preparing..."] ++ ["Searching the web..."])] := by
  decide

/-- C3 (amended): for every state whose first pending step is of type
`"search"`, given a non-empty message list and a non-empty model
summary, the invocation succeeds, that step's status becomes
`"complete"` and its result is the non-empty summary; and if the steps
list contains a further pending step, that step's updates log is
replaced by the single `"Searching the web..."` entry, its previous
entries being discarded. -/
theorem C3_summarizer_success (st : ExtractState) (r : String) (i : Nat) (cur : Step)
    (hfp : firstPending st.steps = some (i, cur))
    (hty : cur.type = some "search")
    (hmsg : st.messages ≠ [])
    (hr : r ≠ "") :
    ((extract_node st r).toOption.map fun s => s.steps[i]?.map Step.status)
        = some (some "complete") ∧
      ((extract_node st r).toOption.map fun s => s.steps[i]?.map Step.result)
        = some (some (some r)) ∧
      r ≠ "" ∧
      ∀ j nxt, i < j → st.steps[j]? = some nxt → nxt.status = "pending" →
        (∀ k t, i < k → k < j → st.steps[k]? = some t → t.status ≠ "pending") →
        ((extract_node st r).toOption.map fun s => s.steps[j]?.map Step.updates)
          = some (some (some ["Searching the web..."])) := by
  have he := extract_node_ok_eq (r := r) hfp hty hmsg
  have hi : i < st.steps.length := firstPending_lt_length hfp
  have hsteps_i :
      ∀ st', extract_node st r = Except.ok st' → st'.steps[i]? = some (completed_step cur r) := by
    intro st' h
    rw [he] at h
    injection h with h
    subst h
    cases hfp2 : firstPending (st.steps.set i (completed_step cur r)) with
    | none =>
      simp only [hfp2]
      exact List.getElem?_set_self hi
    | some p =>
      obtain ⟨j, nxt⟩ := p
      obtain ⟨hij, -, -, -⟩ := firstPending_after_complete hfp hfp2
      simp only [hfp2]
      rw [List.getElem?_set_ne (by omega)]
      exact List.getElem?_set_self hi
  refine ⟨?_, ?_, hr, ?_⟩
  · rw [he]
    simp only [Except.toOption, Option.map_some']
    rw [hsteps_i _ he]
    rfl
  · rw [he]
    simp only [Except.toOption, Option.map_some']
    rw [hsteps_i _ he]
    rfl
  · intro j nxt hij hj hpend hmid
    have hfp2 := firstPending_after_complete_of (r := r) hfp hij hj hpend
      (fun k hik hkj t ht => hmid k t hik hkj ht)
    have hj' : j < st.steps.length := by
      obtain ⟨hlt, -⟩ := List.getElem?_eq_some_iff.mp hj
      exact hlt
    rw [he]
    simp only [Except.toOption, Option.map_some', hfp2]
    rw [List.getElem?_set_self (by simpa using hj')]
    rfl

/-- Witness for C3 (amended): the counterexample state instantiated in
the amended claim. -/
theorem C3_witness :
    ((extract_node c3State "summary").toOption.map fun s => s.steps[0]?.map Step.status)
        = some (some "complete") ∧
      ((extract_node c3State "summary").toOption.map fun s => s.steps[0]?.map Step.result)
        = some (some (some "summary")) ∧
      ("summary" : String) ≠ "" ∧
      ∀ j nxt, 0 < j → c3State.steps[j]? = some nxt → nxt.status = "pending" →
        (∀ k t, 0 < k → k < j → c3State.steps[k]? = some t → t.status ≠ "pending") →
        ((extract_node c3State "summary").toOption.map fun s => s.steps[j]?.map Step.updates)
          = some (some (some ["Searching the web..."])) :=
  C3_summarizer_success c3State "summary" 0 c3Step1
    (by decide) (by decide) (by decide) (by decide)

/-- C7: whenever `extract_node` succeeds, the completed step's raw
`search_result` field in the returned state is cleared (`None`),
whatever its previous value was — including when it was never
populated, since the code never reads it before overwriting. -/
theorem C7_search_result_discarded (st st' : ExtractState) (r : String)
    (h : extract_node st r = Except.ok st') :
    ∃ i cur, firstPending st.steps = some (i, cur) ∧
      st'.steps[i]?.map Step.search_result = some none := by
  obtain ⟨i, cur, hfp, hty, hmsg, hst⟩ := extract_node_ok_inv h
  refine ⟨i, cur, hfp, ?_⟩
  subst hst
  have hi : i < st.steps.length := firstPending_lt_length hfp
  cases hfp2 : firstPending (st.steps.set i (completed_step cur r)) with
  | none =>
    simp only [hfp2]
    rw [List.getElem?_set_self hi]
    rfl
  | some p =>
    obtain ⟨j, nxt⟩ := p
    obtain ⟨hij, -, -, -⟩ := firstPending_after_complete hfp hfp2
    simp only [hfp2]
    rw [List.getElem?_set_ne (by omega), List.getElem?_set_self hi]
    rfl

def c7Step : Step :=
  { id := "1", type := some "search", status := "pending",
    result := none, search_result := some "stale raw payload", updates := none }

def c7State : ExtractState :=
  { messages := [{ role := Role.human, content := "query" }], steps := [c7Step] }

def c7Result : ExtractState :=
  { messages := c7State.messages, steps := [completed_step c7Step "summary"] }

/-- Witness for C7: the step's previously populated `search_result` is
discarded on success. -/
theorem C7_witness :
    ∃ i cur, firstPending c7State.steps = some (i, cur) ∧
      c7Result.steps[i]?.map Step.search_result = some none :=
  C7_search_result_discarded c7State c7Result "summary" (by decide)

/-- C10: on success only two steps change: the first pending step `i`
is replaced by `completed_step` (its `result`, `search_result`,
`status` and `updates` fields rewritten, `id` and `type` kept), and,
when a further pending step exists, the first such step `j` has only
its `updates` field replaced — wholesale, discarding its previous log
entries; every step other than `i` (and `j`) and the state's `messages`
list are returned unchanged, and the steps list keeps its length. -/
theorem C10_frame (st st' : ExtractState) (r : String)
    (h : extract_node st r = Except.ok st') :
    ∃ i cur, firstPending st.steps = some (i, cur) ∧
      st'.messages = st.messages ∧
      st'.steps.length = st.steps.length ∧
      st'.steps[i]? = some (completed_step cur r) ∧
      (((∀ k t, k ≠ i → st.steps[k]? = some t → t.status ≠ "pending") ∧
          ∀ k, k ≠ i → st'.steps[k]? = st.steps[k]?) ∨
        (∃ j nxt, i < j ∧ st.steps[j]? = some nxt ∧ nxt.status = "pending" ∧
          st'.steps[j]? = some { nxt with updates := some ["Searching the web..."] } ∧
          ∀ k, k ≠ i → k ≠ j → st'.steps[k]? = st.steps[k]?)) := by
  obtain ⟨i, cur, hfp, hty, hmsg, hst⟩ := extract_node_ok_inv h
  refine ⟨i, cur, hfp, ?_⟩
  subst hst
  have hi : i < st.steps.length := firstPending_lt_length hfp
  cases hfp2 : firstPending (st.steps.set i (completed_step cur r)) with
  | none =>
    simp only [hfp2]
    refine ⟨by trivial, by simp, List.getElem?_set_self hi, Or.inl ⟨?_, ?_⟩⟩
    · intro k t hk ht
      have hmem : t ∈ st.steps.set i (completed_step cur r) :=
        List.getElem?_mem (by rw [List.getElem?_set_ne (Ne.symm hk)]; exact ht)
      exact (firstPending_none_iff _).mp hfp2 t hmem
    · intro k hk
      exact List.getElem?_set_ne (Ne.symm hk)
  | some p =>
    obtain ⟨j, nxt⟩ := p
    obtain ⟨hij, hjs, hpend, -⟩ := firstPending_after_complete hfp hfp2
    have hj : j < st.steps.length := by
      obtain ⟨hlt, -⟩ := List.getElem?_eq_some_iff.mp hjs
      exact hlt
    simp only [hfp2]
    refine ⟨by trivial, by simp, ?_, Or.inr ⟨j, nxt, hij, hjs, hpend, ?_, ?_⟩⟩
    · rw [List.getElem?_set_ne (show j ≠ i by omega)]
      exact List.getElem?_set_self hi
    · exact List.getElem?_set_self (by simpa using hj)
    · intro k hki hkj
      rw [List.getElem?_set_ne (Ne.symm hkj), List.getElem?_set_ne (Ne.symm hki)]

def c10Result : ExtractState :=
  { messages := c3State.messages,
    steps := [completed_step c3Step1 "summary",
              { c3Step2 with updates := some ["Searching the web..."] }] }

/-- Witness for C10: the two-step state of the C3 scenario, with the
returned state spelled out. -/
theorem C10_witness :
    ∃ i cur, firstPending c3State.steps = some (i, cur) ∧
      c10Result.messages = c3State.messages ∧
      c10Result.steps.length = c3State.steps.length ∧
      c10Result.steps[i]? = some (completed_step cur "summary") ∧
      (((∀ k t, k ≠ i → c3State.steps[k]? = some t → t.status ≠ "pending") ∧
          ∀ k, k ≠ i → c10Result.steps[k]? = c3State.steps[k]?) ∨
        (∃ j nxt, i < j ∧ c3State.steps[j]? = some nxt ∧ nxt.status = "pending" ∧
          c10Result.steps[j]? = some { nxt with updates := some ["Searching the web..."] } ∧
          ∀ k, k ≠ i → k ≠ j → c10Result.steps[k]? = c3State.steps[k]?)) :=
  C10_frame c3State c10Result "summary" (by decide)
